import Mathlib

/-!
Verification of the GitHub API report scripts (src/2025/pull-request/pr.py,
src/2025/code-review/review.py, src/2025/commit/commit.py).

The Python code is shallowly embedded: network responses are supplied as
oracles (functions) or explicit response lists, JSON records become
structures with `Option` fields exactly where the code defends against
missing or ill-typed data, and Python strings become lists of characters so
that every operation computes by structural recursion.
-/

deriving instance DecidableEq for Except

namespace GithubScript

/-- Python strings are modeled as lists of characters (code points). -/
abbrev Str := List Char

/-- A Lean string literal viewed as the model string type. -/
def str (s : String) : Str := s.data

/-- Python str.lower() (per-character case folding). -/
def lowerStr (s : Str) : Str := s.map Char.toLower

/-- Python s.startswith(p). -/
def startsWithStr : Str → Str → Bool
  | _, [] => true
  | [], _ :: _ => false
  | c :: cs, d :: ds => c == d && startsWithStr cs ds

/-- Python s.split('\n')[0]: the characters before the first newline. -/
def firstLineStr : Str → Str
  | [] => []
  | c :: cs => if c == '\n' then [] else c :: firstLineStr cs

/-- Lexicographic code-point comparison, Python's `<=` on strings. -/
def lexLe : Str → Str → Bool
  | [], _ => true
  | _ :: _, [] => false
  | a :: as, b :: bs =>
    if a.toNat = b.toNat then lexLe as bs else decide (a.toNat < b.toNat)

/-! ## Paginator

`get_filtered_prs` (review.py lines 79-124) and `get_all_prs_fast`
(pr.py lines 77-122) are textually identical pagination loops over the
search endpoint; they are embedded once as `getFilteredPrs`.  A response is
either a failed request / falsy body (`fail`: `github_request` returned
`None`, or the body is falsy such as `{}` or `[]`, caught by
`if not search_data`), a truthy body that is not a dict (`nondict`, caught
by the `isinstance` check), or a dict carrying an items field and an
optional total_count.  Items are opaque to the paginator, hence the type
parameter. -/

/-- The `items` field of a search response: present but not a JSON list,
or a list of raw items (a missing field defaults to `[]`, i.e. `ok []`). -/
inductive ItemsField (α : Type) where
  | notList : ItemsField α
  | ok : List α → ItemsField α
deriving DecidableEq

/-- One response of the paged search endpoint. -/
inductive Resp (α : Type) where
  | fail : Resp α
  | nondict : Resp α
  | page : ItemsField α → Option Nat → Resp α
deriving DecidableEq

/-- Page size used by every paginator in the repository. -/
def perPage : Nat := 100

/-- The while-loop of `get_filtered_prs` / `get_all_prs_fast`: walks the
response stream, accumulating items, and returns the accumulated items
together with the last response fetched (`search_data` after the loop).
Exhausting the stream is modeled like a transport failure (`none`). -/
def crawlLoop : List (Resp α) → List α → List α × Option (Resp α)
  | [], acc => (acc, none)
  | r :: rs, acc =>
    match r with
    | .fail => (acc, some .fail)
    | .nondict => (acc, some .nondict)
    | .page .notList t => (acc, some (.page .notList t))
    | .page (.ok xs) t =>
      if xs.isEmpty then (acc, some (.page (.ok xs) t))
      else
        if xs.length < perPage ∨ t.getD 0 ≤ (acc ++ xs).length then
          (acc ++ xs, some (.page (.ok xs) t))
        else crawlLoop rs (acc ++ xs)

/-- Embeds `get_filtered_prs` / `get_all_prs_fast`: the final
`search_data.get('total_count', len(all_items)) if search_data else
len(all_items)` is evaluated on the last response; on a truthy non-dict
response that line raises AttributeError, modeled as `Except.error`. -/
def getFilteredPrs (rs : List (Resp α)) : Except Unit (List α × Nat) :=
  match crawlLoop rs [] with
  | (allItems, none) => .ok (allItems, allItems.length)
  | (allItems, some .fail) => .ok (allItems, allItems.length)
  | (_, some .nondict) => .error ()
  | (allItems, some (.page _ t)) => .ok (allItems, t.getD allItems.length)

/-- One response of the commits list endpoint (commit.py): the body is a
JSON list of commits, or a failed/falsy response, or a truthy non-list. -/
inductive CommitResp (α : Type) where
  | fail : CommitResp α
  | nonlist : CommitResp α
  | page : List α → CommitResp α
deriving DecidableEq

/-- The while-loop of `get_all_commits_fast` (commit.py lines 61-94).
An empty page is falsy and caught by `if not commits_data`. -/
def commitCrawl : List (CommitResp α) → List α → List α
  | [], acc => acc
  | r :: rs, acc =>
    match r with
    | .fail => acc
    | .nonlist => acc
    | .page xs =>
      if xs.isEmpty then acc
      else if xs.length < perPage then acc ++ xs
      else commitCrawl rs (acc ++ xs)

/-- Embeds `get_all_commits_fast`: returns the items and their count. -/
def getAllCommitsFast (rs : List (CommitResp α)) : List α × Nat :=
  (commitCrawl rs [], (commitCrawl rs []).length)

/-- A sequence of well-formed pages (items list plus total_count) encoded
as responses. -/
def encodePages (ps : List (List α × Nat)) : List (Resp α) :=
  ps.map fun p => Resp.page (.ok p.1) (some p.2)

/-- Well-formed commit pages encoded as responses. -/
def encodeCommitPages (ps : List (List α)) : List (CommitResp α) :=
  ps.map CommitResp.page

/-- All items of a sequence of well-formed pages, in order. -/
def pagesItems (ps : List (List α × Nat)) : List α := (ps.map Prod.fst).flatten

/-- The loop's break condition after extending with page `p`, given
`accLen` items accumulated before the page. -/
def pageStops (accLen : Nat) (p : List α × Nat) : Bool :=
  decide (p.1.length < perPage) || decide (p.2 ≤ accLen + p.1.length)

/-- No page of `ps` triggers the break condition (so the loop keeps
fetching), starting from `accLen` accumulated items. -/
def noStops : List (List α × Nat) → Nat → Bool
  | [], _ => true
  | p :: ps, accLen => !pageStops accLen p && noStops ps (accLen + p.1.length)

/-! ## Raw items and detail responses

Fields mirror the keys the scripts read.  `Option` marks the places where
the code tolerates a missing key or a value of the wrong type:
a `none` user object means `pr['user']` is absent or not a dict, a `none`
`pullRequestUrl` means `pr.get('pull_request', {}).get('url')` is `None`,
a `none` base/head means the value is missing or not a dict, and a `none`
branch ref means the value is present but not a string (a missing ref
defaults to the empty string, i.e. `some []`). -/

/-- A JSON user object: `login` defaults to `""` when the key is missing. -/
structure User where
  login : Str
deriving DecidableEq

/-- One item of the search results (`search/issues` response). -/
structure SearchItem where
  number : Nat
  title : Str
  user : Option User
  pullRequestUrl : Option Str
  htmlUrl : Str
  createdAt : Str
  state : Str
deriving DecidableEq

/-- The `base` / `head` object of a PR detail response. -/
structure BranchInfo where
  ref : Option Str
deriving DecidableEq

/-- A PR detail response (`pulls` endpoint).  `additions`/`deletions`
model `pr_details.get('additions', 0) or 0`. -/
structure PrDetails where
  base : Option BranchInfo
  head : Option BranchInfo
  additions : Nat
  deletions : Nat
  mergedAt : Option Str
deriving DecidableEq

/-- One element of an issue-comments response. -/
structure IssueComment where
  user : Option User
  id : Nat
  body : Str
  createdAt : Str
  updatedAt : Str
  htmlUrl : Str
deriving DecidableEq

/-- A comment surviving `get_pr_comments` (review.py lines 126-153). -/
structure UserComment where
  id : Nat
  body : Str
  createdAt : Str
  updatedAt : Str
  url : Str
deriving DecidableEq

/-- The `pr_author` lookup (review.py line 183): the author login when `pr['user']`
is a dict, otherwise the empty string. -/
def prAuthorOf (pr : SearchItem) : Str :=
  match pr.user with
  | some u => u.login
  | none => []

/-- Embeds `get_pr_comments`: fetch the comments of a PR (oracle `fetchComments`;
`none` models a failed request or a non-list body) and keep those whose
author login case-insensitively equals `username`.  A comment whose user
value is not a dict is skipped. -/
def getPrComments (fetchComments : Nat → Option (List IssueComment))
    (prNumber : Nat) (username : Str) : List UserComment :=
  match fetchComments prNumber with
  | none => []
  | some cs =>
    (cs.filter fun c =>
      match c.user with
      | none => false
      | some u => lowerStr u.login == lowerStr username).map
      fun c => ⟨c.id, c.body, c.createdAt, c.updatedAt, c.htmlUrl⟩

/-- The target-branch rejection test of review.py line 210:
`base_branch != 'staging' and not base_branch.startswith('release/')`. -/
def reviewTargetReject (baseBranch : Str) : Bool :=
  baseBranch != str "staging" && !(startsWithStr baseBranch (str "release/"))

/-- The target-branch rejection test of pr.py line 168: rejected unless the
base ref starts with the literal `'release/'` (the `--branch-prefix`
argument is never consulted). -/
def prTargetReject (baseBranch : Str) : Bool :=
  !(startsWithStr baseBranch (str "release/"))

/-- One Result Record of the comment report (`comment_info`,
review.py lines 222-234). -/
structure CommentInfo where
  prNumber : Nat
  prTitle : Str
  prAuthor : Str
  targetBranch : Str
  prUrl : Str
  commentId : Nat
  commentBody : Str
  commentFullBody : Str
  createdAt : Str
  updatedAt : Str
  commentUrl : Str
deriving DecidableEq

/-- One iteration of the item loop of `process_prs_for_comments`
(review.py lines 177-240): the Result Records the item contributes.
`fetchDetail` models `github_request(pr_detail_url)` (`none`: failed
request, falsy or non-dict body). -/
def processOnePrForComments (fetchDetail : Str → Option PrDetails)
    (fetchComments : Nat → Option (List IssueComment)) (username : String)
    (pr : SearchItem) : List CommentInfo :=
  let prAuthor := prAuthorOf pr
  if lowerStr prAuthor == lowerStr (str username) then []
  else
    match pr.pullRequestUrl with
    | none => []
    | some url =>
      if url.isEmpty then []
      else
        match fetchDetail url with
        | none => []
        | some details =>
          match details.base with
          | none => []
          | some baseInfo =>
            match baseInfo.ref with
            | none => []
            | some baseBranch =>
              if reviewTargetReject baseBranch then []
              else
                (getPrComments fetchComments pr.number (str username)).map
                  fun c =>
                    { prNumber := pr.number
                      prTitle := pr.title
                      prAuthor := prAuthor
                      targetBranch := baseBranch
                      prUrl := pr.htmlUrl
                      commentId := c.id
                      commentBody :=
                        if 200 < c.body.length then c.body.take 200 ++ str "..."
                        else c.body
                      commentFullBody := c.body
                      createdAt := c.createdAt
                      updatedAt := c.updatedAt
                      commentUrl := c.url }

/-- One Result Record of the PR report (`pr_info`, pr.py lines 176-187). -/
structure PrInfo where
  number : Nat
  title : Str
  targetBranch : Str
  originBranch : Str
  linesAdded : Nat
  linesDeleted : Nat
  createdAt : Str
  mergedAt : Option Str
  state : Str
  url : Str
deriving DecidableEq

/-- One iteration of the item loop of `process_prs_in_batches`
(pr.py lines 146-193): the Result Record the item contributes, if any.
A head ref that is missing or not a string is modeled as `""`. -/
def processOnePrForRelease (fetchDetail : Str → Option PrDetails)
    (pr : SearchItem) : Option PrInfo :=
  match pr.pullRequestUrl with
  | none => none
  | some url =>
    if url.isEmpty then none
    else
      match fetchDetail url with
      | none => none
      | some details =>
        match details.base with
        | none => none
        | some baseInfo =>
          match baseInfo.ref with
          | none => none
          | some baseBranch =>
            if prTargetReject baseBranch then none
            else
              let originBranch :=
                match details.head with
                | some headInfo => headInfo.ref.getD []
                | none => []
              some { number := pr.number
                     title := pr.title
                     targetBranch := baseBranch
                     originBranch := originBranch
                     linesAdded := details.additions
                     linesDeleted := details.deletions
                     createdAt := pr.createdAt
                     mergedAt := details.mergedAt
                     state := pr.state
                     url := pr.htmlUrl }

/-! ## Batch checkpointer

The loop `for i in range(start_index, len(items), batch_size)` slices
`items[i:i+batch_size]`; these slices are the chunks of the suffix
`items[start_index:]`, computed here by an explicit list of slice
offsets. -/

/-- The batches `l[m*bs : m*bs + bs]` for `m = 0, ..., ceil(|l|/bs) - 1`. -/
def chunkList (bs : Nat) (l : List α) : List (List α) :=
  (List.range ((l.length + bs - 1) / bs)).map fun m => (l.drop (m * bs)).take bs

/-- The checkpoint document of review.py lines 247-254 (the timestamp is
omitted; it is never read back). -/
structure CommentProgress where
  totalPrs : Nat
  processedCount : Nat
  commentsFound : Nat
  processed : List SearchItem
  allComments : List CommentInfo
deriving DecidableEq

/-- The batch loop of `process_prs_for_comments` (review.py lines
171-258): returns the final accumulated comments and the sequence of
checkpoint documents written, one per batch. -/
def commentBatches (fetchDetail : Str → Option PrDetails)
    (fetchComments : Nat → Option (List IssueComment)) (username : String)
    (totalPrs : Nat) :
    List (List SearchItem) → List SearchItem → List CommentInfo →
    List CommentInfo × List CommentProgress
  | [], _processed, acc => (acc, [])
  | batch :: rest, processed, acc =>
    let batchComments :=
      batch.flatMap (processOnePrForComments fetchDetail fetchComments username)
    let acc2 := acc ++ batchComments
    let processed2 := processed ++ batch
    let ck : CommentProgress :=
      ⟨totalPrs, processed2.length, acc2.length, processed2, acc2⟩
    let next := commentBatches fetchDetail fetchComments username totalPrs
      rest processed2 acc2
    (next.1, ck :: next.2)

/-- Embeds `process_prs_for_comments` (review.py lines 155-260).  On resume both
`processed` and `all_comments` are restored from the checkpoint and the
loop starts at `len(processed)`. -/
def processPrsForComments (fetchDetail : Str → Option PrDetails)
    (fetchComments : Nat → Option (List IssueComment)) (username : String)
    (items : List SearchItem) (batchSize : Nat)
    (progress : Option CommentProgress) :
    List CommentInfo × List CommentProgress :=
  let processed := match progress with | some p => p.processed | none => []
  let startIndex := processed.length
  let allComments := match progress with | some p => p.allComments | none => []
  commentBatches fetchDetail fetchComments username items.length
    (chunkList batchSize (items.drop startIndex)) processed allComments

/-- The checkpoint document of pr.py lines 200-207. -/
structure PrProgress where
  totalPrs : Nat
  processedCount : Nat
  releasePrsFound : Nat
  processed : List SearchItem
  releasePrs : List PrInfo
deriving DecidableEq

/-- The batch loop of `process_prs_in_batches` (pr.py lines 140-211). -/
def prBatches (fetchDetail : Str → Option PrDetails) (totalPrs : Nat) :
    List (List SearchItem) → List SearchItem → List PrInfo →
    List PrInfo × List PrProgress
  | [], _processed, acc => (acc, [])
  | batch :: rest, processed, acc =>
    let batchRelease := batch.filterMap (processOnePrForRelease fetchDetail)
    let acc2 := acc ++ batchRelease
    let processed2 := processed ++ batch
    let ck : PrProgress :=
      ⟨totalPrs, processed2.length, acc2.length, processed2, acc2⟩
    let next := prBatches fetchDetail totalPrs rest processed2 acc2
    (next.1, ck :: next.2)

/-- Embeds `process_prs_in_batches` (pr.py lines 124-213).  On resume only
`processed` is restored; `release_prs` is re-initialized to `[]`
(line 138), so results recorded in the checkpoint are not carried over. -/
def processPrsInBatches (fetchDetail : Str → Option PrDetails)
    (items : List SearchItem) (batchSize : Nat)
    (progress : Option PrProgress) : List PrInfo × List PrProgress :=
  let processed := match progress with | some p => p.processed | none => []
  let startIndex := processed.length
  prBatches fetchDetail items.length
    (chunkList batchSize (items.drop startIndex)) processed []

/-! ## Aggregator / report finalization

Python's `list.sort(key=...)` is a stable sort; it is modeled by a stable
insertion sort parameterized by a boolean comparison on keys. -/

/-- Insert `x` before the first element whose key does not precede
`key x`; elements with equal keys keep the incoming element last-inserted
first, which together with `sortByKey`'s right fold preserves input
order among equal keys. -/
def insertByKey (le : κ → κ → Bool) (key : α → κ) (x : α) :
    List α → List α
  | [] => [x]
  | y :: ys =>
    if le (key x) (key y) then x :: y :: ys else y :: insertByKey le key x ys

/-- Stable sort by key: the model of `list.sort(key=...)`. -/
def sortByKey (le : κ → κ → Bool) (key : α → κ) : List α → List α
  | [] => []
  | x :: xs => insertByKey le key x (sortByKey le key xs)

/-- Ascending comparison used by the comment report
(`sort(key=lambda x: x['created_at'])`). -/
def dateAsc (a b : Str) : Bool := lexLe a b

/-- Descending comparison used by the PR report
(`sort(key=lambda x: x['number'], reverse=True)`). -/
def numberDesc (a b : Nat) : Bool := decide (b ≤ a)

/-- Embeds `generate_final_report` (review.py lines 262-321), restricted to its
observable effects: the rows written (None on the empty early return,
review.py lines 264-266) and whether the progress file still exists
afterwards (deletion at lines 317-319 runs only past the early return). -/
def reviewGenerateFinalReport (allComments : List CommentInfo)
    (progressFileExists : Bool) : Option (List CommentInfo) × Bool :=
  if allComments.isEmpty then (none, progressFileExists)
  else (some (sortByKey dateAsc CommentInfo.createdAt allComments), false)

/-- Embeds `generate_final_report` (pr.py lines 215-271): same shape; sorts by PR
number descending; early return at lines 217-219, deletion at 267-269. -/
def prGenerateFinalReport (releasePrs : List PrInfo)
    (progressFileExists : Bool) : Option (List PrInfo) × Bool :=
  if releasePrs.isEmpty then (none, progressFileExists)
  else (some (sortByKey numberDesc PrInfo.number releasePrs), false)

/-! ## Commit report (commit.py) -/

/-- A JSON author/committer object; fields default to `""` when missing. -/
structure Person where
  name : Str
  email : Str
  date : Str
deriving DecidableEq

/-- The `commit` object of a commits-list element; a missing
author/committer is `none` (the code then reads defaults from `{}`). -/
structure CommitObj where
  message : Str
  author : Option Person
  committer : Option Person
deriving DecidableEq

/-- One element of the commits-list response. -/
structure CommitItem where
  sha : Str
  commit : CommitObj
  url : Option Str
  htmlUrl : Str
deriving DecidableEq

/-- The `stats` object of a commit detail response. -/
structure CommitStats where
  additions : Nat
  deletions : Nat
deriving DecidableEq

/-- A commit detail response; `files` is the number of entries of the
`files` array (`len(commit_details.get('files', []))`). -/
structure CommitDetails where
  stats : Option CommitStats
  files : Nat
deriving DecidableEq

/-- The stats lookup of commit.py lines 109-120: `(additions, deletions,
files)`, defaulting to zeros when there is no detail URL or the detail
fetch fails. -/
def commitStatsOf (fetchDetail : Str → Option CommitDetails)
    (c : CommitItem) : Nat × Nat × Nat :=
  match c.url with
  | none => (0, 0, 0)
  | some u =>
    if u.isEmpty then (0, 0, 0)
    else
      match fetchDetail u with
      | none => (0, 0, 0)
      | some d =>
        ((d.stats.map CommitStats.additions).getD 0,
         (d.stats.map CommitStats.deletions).getD 0, d.files)

/-- One row of the commit list (`commit_data`, commit.py lines 136-150). -/
structure CommitEntry where
  sha : Str
  shortSha : Str
  message : Str
  fullMessage : Str
  authorName : Str
  authorEmail : Str
  authorDate : Str
  committerName : Str
  committerDate : Str
  linesAdded : Nat
  linesDeleted : Nat
  filesChanged : Nat
  url : Str
deriving DecidableEq

/-- The commit row built at commit.py lines 136-150. -/
def commitEntryOf (fetchDetail : Str → Option CommitDetails)
    (c : CommitItem) : CommitEntry :=
  let st := commitStatsOf fetchDetail c
  { sha := c.sha
    shortSha := c.sha.take 7
    message := firstLineStr c.commit.message
    fullMessage := c.commit.message
    authorName := (c.commit.author.map Person.name).getD []
    authorEmail := (c.commit.author.map Person.email).getD []
    authorDate := (c.commit.author.map Person.date).getD []
    committerName := (c.commit.committer.map Person.name).getD []
    committerDate := (c.commit.committer.map Person.date).getD []
    linesAdded := st.1
    linesDeleted := st.2.1
    filesChanged := st.2.2
    url := c.htmlUrl }

/-- Embeds `process_commits_for_listing` (commit.py lines 96-157): appends one
row per commit, except that commits whose committer name is exactly
"GitHub" (lines 126-129) or whose message's first line starts with
"Merge branch" (lines 131-134) are skipped. -/
def processCommitsForListing (fetchDetail : Str → Option CommitDetails) :
    List CommitItem → List CommitEntry
  | [] => []
  | c :: cs =>
    if (c.commit.committer.map Person.name).getD [] == str "GitHub" then
      processCommitsForListing fetchDetail cs
    else if startsWithStr (firstLineStr c.commit.message) (str "Merge branch") then
      processCommitsForListing fetchDetail cs
    else commitEntryOf fetchDetail c :: processCommitsForListing fetchDetail cs

/-! ## Resume observers

The resume state read at the top of both batch processors
(review.py lines 160-169, pr.py lines 129-136). -/

/-- The `processed` list restored by `process_prs_for_comments`. -/
def resumeProcessed (progress : Option CommentProgress) : List SearchItem :=
  match progress with
  | some p => p.processed
  | none => []

/-- The `all_comments` list restored by `process_prs_for_comments`. -/
def resumeComments (progress : Option CommentProgress) : List CommentInfo :=
  match progress with
  | some p => p.allComments
  | none => []

/-- The resume offset `start_index = len(processed_prs)`. -/
def resumeOffset (progress : Option CommentProgress) : Nat :=
  (resumeProcessed progress).length

/-- The `processed` list restored by `process_prs_in_batches`. -/
def prResumeProcessed (progress : Option PrProgress) : List SearchItem :=
  match progress with
  | some p => p.processed
  | none => []

/-- The resume offset of the PR report's batch processor. -/
def prResumeOffset (progress : Option PrProgress) : Nat :=
  (prResumeProcessed progress).length

/-! ## Concrete fixtures used by the closed theorems -/

/-- A detail oracle serving one PR targeting `release/1.0` at URL "u1". -/
def cexFetchDetail : Str → Option PrDetails := fun u =>
  if u == str "u1" then
    some ⟨some ⟨some (str "release/1.0")⟩, some ⟨some (str "feat")⟩, 3, 1,
      some (str "m")⟩
  else none

/-- A search item for PR #1 with detail URL "u1", authored by alice. -/
def cexItem : SearchItem :=
  ⟨1, str "t1", some ⟨str "alice"⟩, some (str "u1"), str "h1", str "c1",
    str "open"⟩

/-- The Result Record `process_prs_in_batches` produces for `cexItem`. -/
def cexInfo : PrInfo :=
  ⟨1, str "t1", str "release/1.0", str "feat", 3, 1, str "c1",
    some (str "m"), str "open", str "h1"⟩

/-- The checkpoint written after the only batch of a scratch run over
`[cexItem]`. -/
def cexCkpt : PrProgress := ⟨1, 1, 1, [cexItem], [cexInfo]⟩

/-- A detail oracle whose PRs all target `staging`. -/
def stagFetchDetail : Str → Option PrDetails := fun _ =>
  some ⟨some ⟨some (str "staging")⟩, some ⟨some (str "x")⟩, 0, 0, none⟩

/-- A detail oracle whose PRs all target `release/1.2`. -/
def relFetchDetail : Str → Option PrDetails := fun _ =>
  some ⟨some ⟨some (str "release/1.2")⟩, some ⟨some (str "y")⟩, 2, 1, none⟩

/-- A detail oracle whose PRs all target `hotfix/1.0`. -/
def hotFetchDetail : Str → Option PrDetails := fun _ =>
  some ⟨some ⟨some (str "hotfix/1.0")⟩, some ⟨some (str "z")⟩, 0, 0, none⟩

/-- A search item for PR #2 authored by bob. -/
def stagItem : SearchItem :=
  ⟨2, str "t2", some ⟨str "bob"⟩, some (str "u2"), str "h2", str "c2",
    str "open"⟩

/-- A comments oracle: every PR has one comment by dika-paper. -/
def stagFetchComments : Nat → Option (List IssueComment) := fun _ =>
  some [⟨some ⟨str "dika-paper"⟩, 5, str "lg", str "2025-01-01",
    str "2025-01-02", str "cu"⟩]

/-- The Result Record `process_prs_for_comments` produces for `stagItem`
under `stagFetchDetail` and `stagFetchComments`. -/
def cexComment : CommentInfo :=
  ⟨2, str "t2", str "bob", str "staging", str "h2", 5, str "lg", str "lg",
    str "2025-01-01", str "2025-01-02", str "cu"⟩

/-- A self-authored search item: author login differs from the target
username only by case. -/
def cwUser : SearchItem :=
  ⟨9, str "t9", some ⟨str "Dika-Paper"⟩, some (str "u9"), str "h9",
    str "c9", str "open"⟩

/-! ## Paginator lemmas -/

lemma pagesItems_nil : pagesItems ([] : List (List α × Nat)) = [] := rfl

lemma pagesItems_cons (p : List α × Nat) (ps : List (List α × Nat)) :
    pagesItems (p :: ps) = p.1 ++ pagesItems ps := by
  simp [pagesItems]

/-- A page that does not trigger the break condition is not empty. -/
lemma not_isEmpty_of_pageStops_false {accLen : Nat} {p : List α × Nat}
    (h : pageStops accLen p = false) : p.1.isEmpty = false := by
  simp only [pageStops, Bool.or_eq_false_iff, decide_eq_false_iff_not] at h
  rcases h with ⟨h1, _⟩
  cases hxs : p.1 with
  | nil => exact absurd (by simp [hxs, perPage]) h1
  | cons x xs => simp [List.isEmpty]

/-- While no page triggers the break condition, the loop keeps fetching:
a non-stopping prefix of well-formed pages is consumed whole and its items
are appended to the accumulator. -/
lemma crawlLoop_noStops :
    ∀ (ps : List (List α × Nat)) (acc : List α) (rest : List (Resp α)),
      noStops ps acc.length = true →
      crawlLoop (encodePages ps ++ rest) acc = crawlLoop rest (acc ++ pagesItems ps)
  | [], acc, rest, _ => by simp [encodePages, pagesItems]
  | p :: ps, acc, rest, h => by
    simp only [noStops, Bool.and_eq_true, Bool.not_eq_true'] at h
    rcases h with ⟨h1, h2⟩
    have hne := not_isEmpty_of_pageStops_false h1
    simp only [pageStops, Bool.or_eq_false_iff, decide_eq_false_iff_not] at h1
    rcases h1 with ⟨hlen, htot⟩
    have hcond : ¬(p.1.length < perPage ∨
        (some p.2).getD 0 ≤ (acc ++ p.1).length) := by
      simp only [List.length_append, Option.getD_some]
      exact fun hc => hc.elim hlen htot
    show crawlLoop (Resp.page (.ok p.1) (some p.2) :: (encodePages ps ++ rest)) acc
        = crawlLoop rest (acc ++ pagesItems (p :: ps))
    rw [pagesItems_cons, crawlLoop, hne]
    simp only [Bool.false_eq_true, if_false, if_neg hcond]
    have h2' : noStops ps (acc ++ p.1).length = true := by
      simpa [List.length_append] using h2
    rw [crawlLoop_noStops ps (acc ++ p.1) rest h2', List.append_assoc]

/-- A well-formed page that triggers the break condition ends the loop,
with the page's items appended and the page recorded as the last
response. -/
lemma crawlLoop_stopPage (p : List α × Nat) (acc : List α)
    (rest : List (Resp α)) (h : pageStops acc.length p = true) :
    crawlLoop (Resp.page (.ok p.1) (some p.2) :: rest) acc
      = (acc ++ p.1, some (Resp.page (.ok p.1) (some p.2))) := by
  simp only [pageStops, Bool.or_eq_true, decide_eq_true_eq] at h
  cases hxs : p.1 with
  | nil => simp [crawlLoop, hxs]
  | cons x xs =>
    have hcond : (p.1.length < perPage ∨ (some p.2).getD 0 ≤ (acc ++ p.1).length) := by
      simp only [List.length_append, Option.getD_some]
      exact h
    rw [crawlLoop]
    rw [hxs] at hcond
    simp only [List.isEmpty_cons, Bool.false_eq_true, if_false]
    rw [if_pos hcond]

/-- Immediate-return responses: a transport failure / falsy body, a truthy
non-dict body, or a dict whose items field is not a list each break the
loop at once, leaving the accumulator unchanged. -/
lemma crawlLoop_breakResp (r : Resp α) (acc : List α) (rest : List (Resp α))
    (h : r = Resp.fail ∨ r = Resp.nondict ∨ ∃ t, r = Resp.page .notList t) :
    crawlLoop (r :: rest) acc = (acc, some r) := by
  rcases h with h | h | ⟨t, h⟩ <;> subst h <;> rfl

/-- Commit paginator: pages of at least `per_page` items are consumed
whole. -/
lemma commitCrawl_noStops :
    ∀ (ps : List (List α)) (acc : List α) (rest : List (CommitResp α)),
      (ps.all fun xs => decide (perPage ≤ xs.length)) = true →
      commitCrawl (encodeCommitPages ps ++ rest) acc
        = commitCrawl rest (acc ++ ps.flatten)
  | [], acc, rest, _ => by simp [encodeCommitPages]
  | p :: ps, acc, rest, h => by
    simp only [List.all_cons, Bool.and_eq_true, decide_eq_true_eq] at h
    rcases h with ⟨h1, h2⟩
    have hne : p.isEmpty = false := by
      cases hp : p with
      | nil => rw [hp] at h1; simp [perPage] at h1
      | cons x xs => simp [List.isEmpty]
    show commitCrawl (CommitResp.page p :: (encodeCommitPages ps ++ rest)) acc
        = commitCrawl rest (acc ++ (p :: ps).flatten)
    rw [commitCrawl, hne]
    simp only [Bool.false_eq_true, if_false, if_neg (Nat.not_lt.mpr h1)]
    rw [commitCrawl_noStops ps (acc ++ p) rest (by simpa using h2)]
    simp [List.append_assoc]

/-- Commit paginator: a page with fewer than `per_page` items ends the
loop with that page's items appended. -/
lemma commitCrawl_lastPage (p : List α) (acc : List α)
    (rest : List (CommitResp α)) (h : p.length < perPage) :
    commitCrawl (CommitResp.page p :: rest) acc = acc ++ p := by
  cases hp : p with
  | nil => simp [commitCrawl]
  | cons x xs =>
    rw [commitCrawl]
    rw [hp] at h
    simp only [List.isEmpty_cons, Bool.false_eq_true, if_false]
    rw [if_pos h]

/-! ## Chunking lemmas -/

lemma ceilDivBound (bs n : Nat) (hbs : 0 < bs) : n ≤ ((n + bs - 1) / bs) * bs := by
  have h1 := Nat.div_add_mod (n + bs - 1) bs
  have h2 := Nat.mod_lt (n + bs - 1) hbs
  rw [Nat.mul_comm]
  omega

lemma chunkSlices_flatten (bs : Nat) (l : List α) :
    ∀ k, ((List.range k).map fun m => (l.drop (m * bs)).take bs).flatten
      = l.take (k * bs) := by
  intro k
  induction k with
  | zero => simp
  | succ k ih =>
    rw [List.range_succ, List.map_append, List.flatten_append, ih]
    simp only [List.map_cons, List.map_nil, List.flatten_cons, List.flatten_nil,
      List.append_nil]
    rw [← List.take_add, Nat.succ_mul]

lemma chunkList_flatten (bs : Nat) (hbs : 0 < bs) (l : List α) :
    (chunkList bs l).flatten = l := by
  rw [chunkList, chunkSlices_flatten]
  exact List.take_of_length_le (ceilDivBound bs l.length hbs)

lemma chunkList_take_flatten (bs : Nat) (hbs : 0 < bs) (l : List α) (k : Nat) :
    ((chunkList bs l).take k).flatten = l.take (k * bs) := by
  rw [chunkList, ← List.map_take, List.take_range, chunkSlices_flatten]
  rcases Nat.le_total k ((l.length + bs - 1) / bs) with hk | hk
  · rw [Nat.min_eq_left hk]
  · rw [Nat.min_eq_right hk]
    have hq := ceilDivBound bs l.length hbs
    rw [List.take_of_length_le (le_trans hq (Nat.mul_le_mul_right bs hk)),
      List.take_of_length_le hq]

lemma chunkList_length (bs : Nat) (l : List α) :
    (chunkList bs l).length = (l.length + bs - 1) / bs := by
  simp [chunkList]

/-! ## Batch loop lemmas -/

/-- The comment batch loop's final result: the initial accumulator
followed by every processed item's contribution, independent of the batch
partition. -/
lemma commentBatches_fst (fd : Str → Option PrDetails)
    (fc : Nat → Option (List IssueComment)) (u : String) (T : Nat) :
    ∀ (chunks : List (List SearchItem)) (processed : List SearchItem)
      (acc : List CommentInfo),
      (commentBatches fd fc u T chunks processed acc).1
        = acc ++ chunks.flatten.flatMap (processOnePrForComments fd fc u)
  | [], processed, acc => by simp [commentBatches]
  | batch :: rest, processed, acc => by
    rw [commentBatches]
    simp only [commentBatches_fst fd fc u T rest]
    simp [List.flatMap_append, List.append_assoc]

/-- The `m`-th checkpoint written by the comment batch loop. -/
lemma commentBatches_trace (fd : Str → Option PrDetails)
    (fc : Nat → Option (List IssueComment)) (u : String) (T : Nat) :
    ∀ (chunks : List (List SearchItem)) (processed : List SearchItem)
      (acc : List CommentInfo) (m : Nat) (ck : CommentProgress),
      ((commentBatches fd fc u T chunks processed acc).2).get? m = some ck →
      ck.totalPrs = T ∧
      ck.processed = processed ++ (chunks.take (m + 1)).flatten ∧
      ck.processedCount = ck.processed.length ∧
      ck.allComments = acc ++
        ((chunks.take (m + 1)).flatten).flatMap (processOnePrForComments fd fc u) ∧
      ck.commentsFound = ck.allComments.length
  | [], processed, acc, m, ck => by simp [commentBatches]
  | batch :: rest, processed, acc, m, ck => by
    rw [commentBatches]
    cases m with
    | zero =>
      intro h
      simp only [List.get?] at h
      cases h
      simp
    | succ m =>
      intro h
      simp only [List.get?] at h
      have ih := commentBatches_trace fd fc u T rest (processed ++ batch)
        (acc ++ batch.flatMap (processOnePrForComments fd fc u)) m ck h
      rcases ih with ⟨i1, i2, i3, i4, i5⟩
      refine ⟨i1, ?_, i3, ?_, i5⟩
      · rw [i2]
        simp [List.append_assoc]
      · rw [i4]
        simp [List.flatMap_append, List.append_assoc]

/-- The PR batch loop's final result. -/
lemma prBatches_fst (fd : Str → Option PrDetails) (T : Nat) :
    ∀ (chunks : List (List SearchItem)) (processed : List SearchItem)
      (acc : List PrInfo),
      (prBatches fd T chunks processed acc).1
        = acc ++ chunks.flatten.filterMap (processOnePrForRelease fd)
  | [], processed, acc => by simp [prBatches]
  | batch :: rest, processed, acc => by
    rw [prBatches]
    simp only [prBatches_fst fd T rest]
    simp [List.filterMap_append, List.append_assoc]

/-- The `m`-th checkpoint written by the PR batch loop. -/
lemma prBatches_trace (fd : Str → Option PrDetails) (T : Nat) :
    ∀ (chunks : List (List SearchItem)) (processed : List SearchItem)
      (acc : List PrInfo) (m : Nat) (ck : PrProgress),
      ((prBatches fd T chunks processed acc).2).get? m = some ck →
      ck.totalPrs = T ∧
      ck.processed = processed ++ (chunks.take (m + 1)).flatten ∧
      ck.processedCount = ck.processed.length ∧
      ck.releasePrs = acc ++
        ((chunks.take (m + 1)).flatten).filterMap (processOnePrForRelease fd) ∧
      ck.releasePrsFound = ck.releasePrs.length
  | [], processed, acc, m, ck => by simp [prBatches]
  | batch :: rest, processed, acc, m, ck => by
    rw [prBatches]
    cases m with
    | zero =>
      intro h
      simp only [List.get?] at h
      cases h
      simp
    | succ m =>
      intro h
      simp only [List.get?] at h
      have ih := prBatches_trace fd T rest (processed ++ batch)
        (acc ++ batch.filterMap (processOnePrForRelease fd)) m ck h
      rcases ih with ⟨i1, i2, i3, i4, i5⟩
      refine ⟨i1, ?_, i3, ?_, i5⟩
      · rw [i2]
        simp [List.append_assoc]
      · rw [i4]
        simp [List.filterMap_append, List.append_assoc]

/-- The comment processor's results, as a function of the resume state:
everything restored from the checkpoint followed by the contributions of
the items from the resume offset on. -/
lemma processPrsForComments_fst (fd : Str → Option PrDetails)
    (fc : Nat → Option (List IssueComment)) (u : String)
    (items : List SearchItem) (bs : Nat) (hbs : 0 < bs)
    (progress : Option CommentProgress) :
    (processPrsForComments fd fc u items bs progress).1
      = (match progress with | some p => p.allComments | none => []) ++
        (items.drop
            (match progress with | some p => p.processed.length | none => 0)).flatMap
          (processOnePrForComments fd fc u) := by
  cases progress with
  | none =>
    rw [processPrsForComments]
    rw [commentBatches_fst, chunkList_flatten bs hbs]
    simp
  | some p =>
    rw [processPrsForComments]
    rw [commentBatches_fst, chunkList_flatten bs hbs]

/-- The PR processor's results: the checkpoint's saved results are NOT
restored; only the contributions of items from the resume offset on are
returned. -/
lemma processPrsInBatches_fst (fd : Str → Option PrDetails)
    (items : List SearchItem) (bs : Nat) (hbs : 0 < bs)
    (progress : Option PrProgress) :
    (processPrsInBatches fd items bs progress).1
      = (items.drop
            (match progress with | some p => p.processed.length | none => 0)).filterMap
          (processOnePrForRelease fd) := by
  cases progress with
  | none =>
    rw [processPrsInBatches]
    rw [prBatches_fst, chunkList_flatten bs hbs]
    simp
  | some p =>
    rw [processPrsInBatches]
    rw [prBatches_fst, chunkList_flatten bs hbs]
    simp

/-! ## Order facts for the sort comparisons -/

lemma lexLe_refl : ∀ s : Str, lexLe s s = true
  | [] => rfl
  | c :: cs => by rw [lexLe, if_pos rfl]; exact lexLe_refl cs

lemma lexLe_total : ∀ a b : Str, lexLe a b = true ∨ lexLe b a = true
  | [], _ => Or.inl rfl
  | _ :: _, [] => Or.inr rfl
  | a :: as, b :: bs => by
    rw [lexLe, lexLe]
    rcases Nat.lt_trichotomy a.toNat b.toNat with h | h | h
    · left
      rw [if_neg (Nat.ne_of_lt h)]
      simpa using h
    · rw [if_pos h, if_pos h.symm]
      exact lexLe_total as bs
    · right
      rw [if_neg (Nat.ne_of_lt h)]
      simpa using h

lemma lexLe_trans : ∀ a b c : Str,
    lexLe a b = true → lexLe b c = true → lexLe a c = true
  | [], _, _, _, _ => rfl
  | _ :: _, [], _, h1, _ => by simp [lexLe] at h1
  | _ :: _, _ :: _, [], _, h2 => by simp [lexLe] at h2
  | a :: as, b :: bs, c :: cs, h1, h2 => by
    rw [lexLe] at h1 h2 ⊢
    by_cases hab : a.toNat = b.toNat
    · rw [if_pos hab] at h1
      by_cases hbc : b.toNat = c.toNat
      · rw [if_pos hbc] at h2
        rw [if_pos (hab.trans hbc)]
        exact lexLe_trans as bs cs h1 h2
      · rw [if_neg hbc] at h2
        simp only [decide_eq_true_eq] at h2
        rw [if_neg (by omega)]
        simp only [decide_eq_true_eq]
        omega
    · rw [if_neg hab] at h1
      simp only [decide_eq_true_eq] at h1
      by_cases hbc : b.toNat = c.toNat
      · rw [if_neg (by omega)]
        simp only [decide_eq_true_eq]
        omega
      · rw [if_neg hbc] at h2
        simp only [decide_eq_true_eq] at h2
        rw [if_neg (by omega)]
        simp only [decide_eq_true_eq]
        omega

lemma dateAsc_refl (a : Str) : dateAsc a a = true := lexLe_refl a

lemma dateAsc_total (a b : Str) : dateAsc a b = true ∨ dateAsc b a = true :=
  lexLe_total a b

lemma dateAsc_trans (a b c : Str) :
    dateAsc a b = true → dateAsc b c = true → dateAsc a c = true :=
  lexLe_trans a b c

lemma numberDesc_refl (a : Nat) : numberDesc a a = true := by
  simp [numberDesc]

lemma numberDesc_total (a b : Nat) :
    numberDesc a b = true ∨ numberDesc b a = true := by
  simp only [numberDesc, decide_eq_true_eq]
  omega

lemma numberDesc_trans (a b c : Nat) :
    numberDesc a b = true → numberDesc b c = true → numberDesc a c = true := by
  simp only [numberDesc, decide_eq_true_eq]
  omega

/-! ## Stable sort lemmas -/

lemma insertByKey_perm (le : κ → κ → Bool) (key : α → κ) (x : α) :
    ∀ l : List α, (insertByKey le key x l).Perm (x :: l)
  | [] => List.Perm.refl _
  | y :: ys => by
    rw [insertByKey]
    split
    · exact List.Perm.refl _
    · exact ((insertByKey_perm le key x ys).cons y).trans
        (List.Perm.swap x y ys)

lemma sortByKey_perm (le : κ → κ → Bool) (key : α → κ) :
    ∀ l : List α, (sortByKey le key l).Perm l
  | [] => List.Perm.refl _
  | x :: xs =>
    (insertByKey_perm le key x (sortByKey le key xs)).trans
      ((sortByKey_perm le key xs).cons x)

lemma insertByKey_pairwise (le : κ → κ → Bool) (key : α → κ)
    (htot : ∀ a b, le a b = true ∨ le b a = true)
    (htrans : ∀ a b c, le a b = true → le b c = true → le a c = true)
    (x : α) :
    ∀ l : List α, l.Pairwise (fun a b => le (key a) (key b) = true) →
      (insertByKey le key x l).Pairwise (fun a b => le (key a) (key b) = true)
  | [], _ => by simp [insertByKey]
  | y :: ys, hl => by
    rw [List.pairwise_cons] at hl
    rcases hl with ⟨hy, hys⟩
    rw [insertByKey]
    split
    · rename_i hxy
      rw [List.pairwise_cons]
      refine ⟨?_, List.pairwise_cons.mpr ⟨hy, hys⟩⟩
      intro z hz
      rcases List.mem_cons.mp hz with rfl | hz
      · exact hxy
      · exact htrans _ _ _ hxy (hy z hz)
    · rename_i hxy
      have hyx : le (key y) (key x) = true := by
        rcases htot (key x) (key y) with h | h
        · exact absurd h hxy
        · exact h
      rw [List.pairwise_cons]
      refine ⟨?_, insertByKey_pairwise le key htot htrans x ys hys⟩
      intro z hz
      have hz' : z ∈ x :: ys := (insertByKey_perm le key x ys).mem_iff.mp hz
      rcases List.mem_cons.mp hz' with rfl | hz'
      · exact hyx
      · exact hy z hz'

lemma sortByKey_pairwise (le : κ → κ → Bool) (key : α → κ)
    (htot : ∀ a b, le a b = true ∨ le b a = true)
    (htrans : ∀ a b c, le a b = true → le b c = true → le a c = true) :
    ∀ l : List α,
      (sortByKey le key l).Pairwise (fun a b => le (key a) (key b) = true)
  | [] => List.Pairwise.nil
  | x :: xs =>
    insertByKey_pairwise le key htot htrans x (sortByKey le key xs)
      (sortByKey_pairwise le key htot htrans xs)

lemma insertByKey_filter [DecidableEq κ] (le : κ → κ → Bool) (key : α → κ)
    (hrefl : ∀ a, le a a = true) (x : α) (c : κ) :
    ∀ l : List α,
      (insertByKey le key x l).filter (fun a => decide (key a = c))
        = if key x = c then x :: l.filter (fun a => decide (key a = c))
          else l.filter (fun a => decide (key a = c))
  | [] => by
    rw [insertByKey]
    by_cases hx : key x = c
    · simp [List.filter, hx]
    · simp [List.filter, hx]
  | y :: ys => by
    rw [insertByKey]
    split
    · rename_i hxy
      by_cases hx : key x = c
      · simp [List.filter_cons, hx]
      · simp [List.filter_cons, hx]
    · rename_i hxy
      by_cases hx : key x = c
      · by_cases hy : key y = c
        · exfalso
          rw [hx, hy, hrefl c] at hxy
          exact hxy rfl
        · simp [List.filter_cons, insertByKey_filter le key hrefl x c ys, hx, hy]
      · by_cases hy : key y = c
        · simp [List.filter_cons, insertByKey_filter le key hrefl x c ys, hx, hy]
        · simp [List.filter_cons, insertByKey_filter le key hrefl x c ys, hx, hy]

lemma sortByKey_filter [DecidableEq κ] (le : κ → κ → Bool) (key : α → κ)
    (hrefl : ∀ a, le a a = true) (c : κ) :
    ∀ l : List α,
      (sortByKey le key l).filter (fun a => decide (key a = c))
        = l.filter (fun a => decide (key a = c))
  | [] => rfl
  | x :: xs => by
    rw [sortByKey, insertByKey_filter le key hrefl x c,
      sortByKey_filter le key hrefl c xs, List.filter_cons]
    by_cases hx : key x = c
    · simp [hx]
    · simp [hx]

/-- The comment processor's checkpoint trace, in terms of the resume
observers. -/
lemma processPrsForComments_trace (fd : Str → Option PrDetails)
    (fc : Nat → Option (List IssueComment)) (u : String)
    (items : List SearchItem) (bs : Nat) (progress : Option CommentProgress) :
    (processPrsForComments fd fc u items bs progress).2
      = (commentBatches fd fc u items.length
          (chunkList bs (items.drop (resumeOffset progress)))
          (resumeProcessed progress) (resumeComments progress)).2 := by
  cases progress <;> rfl

/-- The PR processor's checkpoint trace, in terms of the resume
observers. -/
lemma processPrsInBatches_trace (fd : Str → Option PrDetails)
    (items : List SearchItem) (bs : Nat) (progress : Option PrProgress) :
    (processPrsInBatches fd items bs progress).2
      = (prBatches fd items.length
          (chunkList bs (items.drop (prResumeOffset progress)))
          (prResumeProcessed progress) []).2 := by
  cases progress <;> rfl

/-! ## Claim theorems -/

/-- Claim C1.  The PR report's batch processor does NOT satisfy checkpoint
resume correctness: over the one-item input `[cexItem]` (whose detail
fetch yields a `release/` target), a from-scratch run returns the record
`cexInfo` and writes the checkpoint `cexCkpt` (processed count 1,
saved results `[cexInfo]`), but a run resumed from exactly that
checkpoint returns the empty result list — the checkpoint's saved
results are discarded (pr.py line 138), so the merged result differs
from the from-scratch run. -/
theorem pr_resume_drops_saved_results :
    (processPrsInBatches cexFetchDetail [cexItem] 25 none).1 = [cexInfo]
    ∧ (processPrsInBatches cexFetchDetail [cexItem] 25 none).2 = [cexCkpt]
    ∧ (processPrsInBatches cexFetchDetail [cexItem] 25 (some cexCkpt)).1 = []
    ∧ (processPrsInBatches cexFetchDetail [cexItem] 25 (some cexCkpt)).1
        ≠ (processPrsInBatches cexFetchDetail [cexItem] 25 none).1 := by
  decide

/-- Claim C2 counterexample.  The claim says the target-branch predicate of
every report accepts a base ref of "staging"; the PR report's predicate
(pr.py line 168) rejects it, both as a predicate and through the whole
item pipeline. -/
theorem pr_report_rejects_staging :
    prTargetReject (str "staging") = true
    ∧ processOnePrForRelease stagFetchDetail stagItem = none := by
  decide

/-- Claim C2 amended.  Under the hard-coded prefix "release/": the comment
report's predicate accepts "staging" and "release/1.2" and rejects
"main" and "Release/x" (case-sensitive); the PR report's predicate
accepts "release/1.2" but rejects "staging", "main" and "Release/x".
The pipeline-level conjuncts witness acceptance end to end. -/
theorem branch_predicate_exactness_amended :
    reviewTargetReject (str "staging") = false
    ∧ reviewTargetReject (str "release/1.2") = false
    ∧ reviewTargetReject (str "main") = true
    ∧ reviewTargetReject (str "Release/x") = true
    ∧ prTargetReject (str "release/1.2") = false
    ∧ prTargetReject (str "staging") = true
    ∧ prTargetReject (str "main") = true
    ∧ prTargetReject (str "Release/x") = true
    ∧ processOnePrForComments stagFetchDetail stagFetchComments
        "dika-paper" stagItem = [cexComment]
    ∧ processOnePrForRelease relFetchDetail stagItem
        = some ⟨2, str "t2", str "release/1.2", str "y", 2, 1, str "c2",
            none, str "open", str "h2"⟩ := by
  decide

/-- Claim C3.  The PR report's branch filter is hard-coded to the literal
"release/": `process_prs_in_batches` receives no prefix argument (its
embedding `processPrsInBatches` has none), so a PR whose base ref is
"hotfix/1.0" is rejected no matter what `--branch-prefix` was supplied,
while "release/"-targeting PRs are accepted no matter what was
supplied. -/
theorem pr_branch_filter_is_hardcoded :
    prTargetReject (str "hotfix/1.0") = true
    ∧ processOnePrForRelease hotFetchDetail stagItem = none
    ∧ processOnePrForRelease relFetchDetail stagItem
        = some ⟨2, str "t2", str "release/1.2", str "y", 2, 1, str "c2",
            none, str "open", str "h2"⟩ := by
  decide

/-- Claim C4.  Pagination termination and output, for the search paginator
(review.py `get_filtered_prs` = pr.py `get_all_prs_fast`) and the commit
paginator (`get_all_commits_fast`).  If no page before `p` triggers the
break condition and `p` does (fewer than `per_page` items, or the
accumulated count reaching the page's reported total), then regardless
of any further responses `junk` the paginator stops at `p` and returns
exactly the concatenation, in fetch order, of the items of the pages
fetched up to and including `p` (with `p`'s reported total, for the
search paginator). -/
theorem pagination_termination_and_output :
    (∀ (α : Type) (pre : List (List α × Nat)) (p : List α × Nat)
        (junk : List (Resp α)),
      noStops pre 0 = true → pageStops (pagesItems pre).length p = true →
      getFilteredPrs (encodePages (pre ++ [p]) ++ junk)
        = .ok (pagesItems (pre ++ [p]), p.2))
    ∧ (∀ (α : Type) (pre : List (List α)) (lastPage : List α)
        (junk : List (CommitResp α)),
      (pre.all fun xs => decide (perPage ≤ xs.length)) = true →
      lastPage.length < perPage →
      getAllCommitsFast (encodeCommitPages (pre ++ [lastPage]) ++ junk)
        = ((pre ++ [lastPage]).flatten, (pre ++ [lastPage]).flatten.length)) := by
  constructor
  · intro α pre p junk h1 h2
    have e1 : encodePages (pre ++ [p]) ++ junk
        = encodePages pre ++ (Resp.page (.ok p.1) (some p.2) :: junk) := by
      simp [encodePages]
    rw [getFilteredPrs, e1,
      crawlLoop_noStops pre [] _ (by simpa using h1), List.nil_append,
      crawlLoop_stopPage _ _ _ h2]
    simp [pagesItems]
  · intro α pre lastPage junk h1 h2
    have e1 : encodeCommitPages (pre ++ [lastPage]) ++ junk
        = encodeCommitPages pre ++ (CommitResp.page lastPage :: junk) := by
      simp [encodeCommitPages]
    rw [getAllCommitsFast, e1,
      commitCrawl_noStops pre [] _ h1, List.nil_append,
      commitCrawl_lastPage _ _ _ h2]
    simp

/-- Claim C4 witness: a single 2-item page (fewer than `per_page`) terminates
each paginator at once with exactly that page's items. -/
theorem pagination_termination_and_output_witness :
    getFilteredPrs (encodePages ([] ++ [([5, 6], 2)]) ++ ([] : List (Resp Nat)))
      = .ok (pagesItems ([] ++ [([5, 6], 2)]), 2)
    ∧ getAllCommitsFast (encodeCommitPages ([] ++ [[7, 8]])
        ++ ([] : List (CommitResp Nat)))
      = (([] ++ [[7, 8]] : List (List Nat)).flatten,
         ([] ++ [[7, 8]] : List (List Nat)).flatten.length) :=
  ⟨pagination_termination_and_output.1 Nat [] ([5, 6], 2) [] (by decide)
      (by decide),
   pagination_termination_and_output.2 Nat [] [7, 8] [] (by decide)
      (by decide)⟩

/-- Claim C5 counterexample.  The claim says a failing page makes the
paginator return the best-known reported total.  After one full page of
100 items with reported total 250, a transport failure on page 2 makes
`get_filtered_prs` return total 100 (the accumulated count), not the
previously reported 250: the earlier total is forgotten. -/
theorem paginator_forgets_reported_total :
    getFilteredPrs (encodePages [(List.range 100, 250)] ++ [Resp.fail])
      = .ok (List.range 100, 100)
    ∧ (100 : Nat) ≠ 250 := by
  decide

/-- Claim C5 amended.  After any non-stopping prefix of successful pages, the
paginator stops early and silently on a failed/falsy response (returning
the accumulated items with the accumulated count as total) and on a page
whose items field is not a list (returning the accumulated items with
that response's total_count, defaulting to the accumulated count); a
truthy non-dict response instead raises at the final total lookup. -/
theorem paginator_truncation_amended :
    ∀ (α : Type) (pre : List (List α × Nat)) (t : Option Nat)
      (junk : List (Resp α)),
      noStops pre 0 = true →
      (getFilteredPrs (encodePages pre ++ Resp.fail :: junk)
          = .ok (pagesItems pre, (pagesItems pre).length))
      ∧ (getFilteredPrs (encodePages pre ++ Resp.page .notList t :: junk)
          = .ok (pagesItems pre, t.getD (pagesItems pre).length))
      ∧ (getFilteredPrs (encodePages pre ++ Resp.nondict :: junk)
          = .error ()) := by
  intro α pre t junk h
  refine ⟨?_, ?_, ?_⟩
  · rw [getFilteredPrs, crawlLoop_noStops pre [] _ (by simpa using h),
      List.nil_append, crawlLoop_breakResp _ _ _ (Or.inl rfl)]
  · rw [getFilteredPrs, crawlLoop_noStops pre [] _ (by simpa using h),
      List.nil_append, crawlLoop_breakResp _ _ _ (Or.inr (Or.inr ⟨t, rfl⟩))]
  · rw [getFilteredPrs, crawlLoop_noStops pre [] _ (by simpa using h),
      List.nil_append, crawlLoop_breakResp _ _ _ (Or.inr (Or.inl rfl))]

/-- Claim C5 amended witness: with no preceding pages, a transport failure
yields `([], 0)`, a malformed items field yields its reported total 7,
and a non-dict response yields the error. -/
theorem paginator_truncation_amended_witness :
    (getFilteredPrs (encodePages ([] : List (List Nat × Nat))
          ++ Resp.fail :: [])
        = .ok (pagesItems ([] : List (List Nat × Nat)),
            (pagesItems ([] : List (List Nat × Nat))).length))
    ∧ (getFilteredPrs (encodePages ([] : List (List Nat × Nat))
          ++ Resp.page .notList (some 7) :: [])
        = .ok (pagesItems ([] : List (List Nat × Nat)),
            (some 7).getD (pagesItems ([] : List (List Nat × Nat))).length))
    ∧ (getFilteredPrs (encodePages ([] : List (List Nat × Nat))
          ++ Resp.nondict :: [])
        = .error ()) :=
  paginator_truncation_amended Nat [] (some 7) [] (by decide)

/-- Claim C6 counterexample.  The claim says the checkpoint is deleted after
every successful run, including runs whose filtered result set is empty.
In both reports, `generate_final_report` called with an empty result
list returns early, before the deletion code, so a pre-existing progress
file still exists afterwards (and the run exits 0). -/
theorem empty_run_keeps_checkpoint :
    (reviewGenerateFinalReport [] true).2 = true
    ∧ (prGenerateFinalReport [] true).2 = true := by
  decide

/-- Claim C6 amended.  On a successful run whose result set is non-empty, both
reports' finalization steps delete the checkpoint file (it no longer
exists afterwards); when the result set is empty the step returns early
and the checkpoint file is left in place. -/
theorem checkpoint_deleted_when_results_nonempty :
    (∀ (cs : List CommentInfo) (e : Bool), cs ≠ [] →
      (reviewGenerateFinalReport cs e).2 = false)
    ∧ (∀ (ps : List PrInfo) (e : Bool), ps ≠ [] →
      (prGenerateFinalReport ps e).2 = false) := by
  constructor
  · intro cs e h
    cases cs with
    | nil => exact absurd rfl h
    | cons c cs => simp [reviewGenerateFinalReport]
  · intro ps e h
    cases ps with
    | nil => exact absurd rfl h
    | cons p ps => simp [prGenerateFinalReport]

/-- Claim C6 amended witness: one-record runs delete the checkpoint in both
reports. -/
theorem checkpoint_deleted_when_results_nonempty_witness :
    (reviewGenerateFinalReport [cexComment] true).2 = false
    ∧ (prGenerateFinalReport [cexInfo] true).2 = false :=
  ⟨checkpoint_deleted_when_results_nonempty.1 [cexComment] true (by decide),
   checkpoint_deleted_when_results_nonempty.2 [cexInfo] true (by decide)⟩

/-- Claim C7.  Self-authorship exclusion: an item whose author login equals
the target username case-insensitively is rejected by the comment
report's filter pipeline before any other check, contributes zero Result
Records whatever its other attributes and whatever the oracles answer,
and removing it from a run's input leaves the run's results unchanged. -/
theorem self_authored_pr_rejected :
    ∀ (fd : Str → Option PrDetails) (fc : Nat → Option (List IssueComment))
      (u : String) (pr : SearchItem),
      lowerStr (prAuthorOf pr) = lowerStr (str u) →
      processOnePrForComments fd fc u pr = []
      ∧ ∀ (pre post : List SearchItem) (bs : Nat), 0 < bs →
          (processPrsForComments fd fc u (pre ++ pr :: post) bs none).1
            = (processPrsForComments fd fc u (pre ++ post) bs none).1 := by
  intro fd fc u pr h
  have h0 : processOnePrForComments fd fc u pr = [] := by
    simp only [processOnePrForComments]
    rw [h]
    simp
  refine ⟨h0, ?_⟩
  intro pre post bs hbs
  rw [processPrsForComments_fst fd fc u (pre ++ pr :: post) bs hbs none,
    processPrsForComments_fst fd fc u (pre ++ post) bs hbs none]
  simp [h0]

/-- Claim C7 witness: the author login "Dika-Paper" matches the username
"dika-paper" case-insensitively, and the item is rejected. -/
theorem self_authored_pr_rejected_witness :
    lowerStr (prAuthorOf cwUser) = lowerStr (str "dika-paper")
    ∧ processOnePrForComments (fun _ => none) (fun _ => none) "dika-paper"
        cwUser = [] :=
  ⟨by decide,
   (self_authored_pr_rejected (fun _ => none) (fun _ => none) "dika-paper"
      cwUser (by decide)).1⟩

/-- Claim C8.  Checkpoint length invariant, for both batch processors: the
checkpoint written after the `m`-th batch of a run resumed at offset
`k` (the length of the restored processed list; `k = 0` for a fresh run)
records exactly the restored items followed by the input items at
indices `[k, k + (m+1)*batchSize)`, its `processed_count` equals the
length of its processed list, and that count is
`min (k + (m+1)*batchSize) |items|` — every consumed item is counted,
accepted or rejected.  The last conjunct shows `len(processed)` is
exactly the offset where a resumed run starts: its results are those of
the items from that offset on (plus, for the comment report, the
restored results). -/
theorem checkpoint_length_invariant :
    (∀ (fd : Str → Option PrDetails) (fc : Nat → Option (List IssueComment))
       (u : String) (items : List SearchItem) (bs : Nat)
       (progress : Option CommentProgress) (m : Nat) (ck : CommentProgress),
      0 < bs → resumeOffset progress ≤ items.length →
      ((processPrsForComments fd fc u items bs progress).2).get? m = some ck →
      ck.processed = resumeProcessed progress
          ++ (items.drop (resumeOffset progress)).take ((m + 1) * bs)
      ∧ ck.processedCount = ck.processed.length
      ∧ ck.processedCount
          = min (resumeOffset progress + (m + 1) * bs) items.length)
    ∧ (∀ (fd : Str → Option PrDetails) (items : List SearchItem) (bs : Nat)
         (progress : Option PrProgress) (m : Nat) (ck : PrProgress),
      0 < bs → prResumeOffset progress ≤ items.length →
      ((processPrsInBatches fd items bs progress).2).get? m = some ck →
      ck.processed = prResumeProcessed progress
          ++ (items.drop (prResumeOffset progress)).take ((m + 1) * bs)
      ∧ ck.processedCount = ck.processed.length
      ∧ ck.processedCount
          = min (prResumeOffset progress + (m + 1) * bs) items.length)
    ∧ (∀ (fd : Str → Option PrDetails) (fc : Nat → Option (List IssueComment))
         (u : String) (items : List SearchItem) (bs : Nat)
         (p : CommentProgress) (q : PrProgress), 0 < bs →
      (processPrsForComments fd fc u items bs (some p)).1
          = p.allComments ++ (items.drop p.processed.length).flatMap
              (processOnePrForComments fd fc u)
      ∧ (processPrsInBatches fd items bs (some q)).1
          = (items.drop q.processed.length).filterMap
              (processOnePrForRelease fd)) := by
  refine ⟨?_, ?_, ?_⟩
  · intro fd fc u items bs progress m ck hbs hle htr
    rw [processPrsForComments_trace] at htr
    obtain ⟨_, h2, h3, _, _⟩ :=
      commentBatches_trace fd fc u items.length _ _ _ m ck htr
    rw [chunkList_take_flatten bs hbs] at h2
    refine ⟨h2, h3, ?_⟩
    rw [h3, h2, List.length_append, List.length_take, List.length_drop]
    have he : (resumeProcessed progress).length = resumeOffset progress := rfl
    omega
  · intro fd items bs progress m ck hbs hle htr
    rw [processPrsInBatches_trace] at htr
    obtain ⟨_, h2, h3, _, _⟩ :=
      prBatches_trace fd items.length _ _ _ m ck htr
    rw [chunkList_take_flatten bs hbs] at h2
    refine ⟨h2, h3, ?_⟩
    rw [h3, h2, List.length_append, List.length_take, List.length_drop]
    have he : (prResumeProcessed progress).length = prResumeOffset progress := rfl
    omega
  · intro fd fc u items bs p q hbs
    constructor
    · rw [processPrsForComments_fst fd fc u items bs hbs (some p)]
    · rw [processPrsInBatches_fst fd items bs hbs (some q)]

/-- Claim C8 witness: a fresh one-item run with batch size 1 writes one
checkpoint with processed count `min (0 + 1*1) 1 = 1`. -/
theorem checkpoint_length_invariant_witness :
    (⟨1, 1, 1, [stagItem], [cexComment]⟩ : CommentProgress).processed
        = resumeProcessed none
          ++ (([stagItem]).drop (resumeOffset none)).take ((0 + 1) * 1)
    ∧ (⟨1, 1, 1, [stagItem], [cexComment]⟩ : CommentProgress).processedCount
        = (⟨1, 1, 1, [stagItem], [cexComment]⟩ : CommentProgress).processed.length
    ∧ (⟨1, 1, 1, [stagItem], [cexComment]⟩ : CommentProgress).processedCount
        = min (resumeOffset none + (0 + 1) * 1) ([stagItem]).length :=
  checkpoint_length_invariant.1 stagFetchDetail stagFetchComments
    "dika-paper" [stagItem] 1 none 0 ⟨1, 1, 1, [stagItem], [cexComment]⟩
    (by decide) (by decide) (by decide)

/-- Claim C9.  Final sort order and stability: each report's finalization step
emits exactly the stable sort of the accumulated records by its
designated key — comment creation timestamp ascending, PR number
descending — applied once to the accumulated list; the output is a
permutation of the input, is pairwise ordered by the key, and records
with equal keys keep their relative accumulation order (filtering the
output by any key value gives the input's records with that key, in
input order). -/
theorem final_sort_order_and_stability :
    (∀ (cs : List CommentInfo) (e : Bool), cs ≠ [] →
      (reviewGenerateFinalReport cs e).1
        = some (sortByKey dateAsc CommentInfo.createdAt cs))
    ∧ (∀ cs : List CommentInfo,
        (sortByKey dateAsc CommentInfo.createdAt cs).Perm cs)
    ∧ (∀ cs : List CommentInfo,
        (sortByKey dateAsc CommentInfo.createdAt cs).Pairwise
          (fun a b => dateAsc a.createdAt b.createdAt = true))
    ∧ (∀ (cs : List CommentInfo) (d : Str),
        (sortByKey dateAsc CommentInfo.createdAt cs).filter
            (fun a => decide (a.createdAt = d))
          = cs.filter (fun a => decide (a.createdAt = d)))
    ∧ (∀ (ps : List PrInfo) (e : Bool), ps ≠ [] →
        (prGenerateFinalReport ps e).1
          = some (sortByKey numberDesc PrInfo.number ps))
    ∧ (∀ ps : List PrInfo, (sortByKey numberDesc PrInfo.number ps).Perm ps)
    ∧ (∀ ps : List PrInfo,
        (sortByKey numberDesc PrInfo.number ps).Pairwise
          (fun a b => numberDesc a.number b.number = true))
    ∧ (∀ (ps : List PrInfo) (n : Nat),
        (sortByKey numberDesc PrInfo.number ps).filter
            (fun a => decide (a.number = n))
          = ps.filter (fun a => decide (a.number = n))) := by
  refine ⟨?_, ?_, ?_, ?_, ?_, ?_, ?_, ?_⟩
  · intro cs e h
    cases cs with
    | nil => exact absurd rfl h
    | cons c cs => simp [reviewGenerateFinalReport]
  · exact sortByKey_perm dateAsc CommentInfo.createdAt
  · exact sortByKey_pairwise dateAsc CommentInfo.createdAt dateAsc_total
      dateAsc_trans
  · intro cs d
    exact sortByKey_filter dateAsc CommentInfo.createdAt dateAsc_refl d cs
  · intro ps e h
    cases ps with
    | nil => exact absurd rfl h
    | cons p ps => simp [prGenerateFinalReport]
  · exact sortByKey_perm numberDesc PrInfo.number
  · exact sortByKey_pairwise numberDesc PrInfo.number numberDesc_total
      numberDesc_trans
  · intro ps n
    exact sortByKey_filter numberDesc PrInfo.number numberDesc_refl n ps

/-- Claim C9 witness: one-record runs produce the one-record sorted report in
both finalization steps. -/
theorem final_sort_order_and_stability_witness :
    (reviewGenerateFinalReport [cexComment] true).1
      = some (sortByKey dateAsc CommentInfo.createdAt [cexComment])
    ∧ (prGenerateFinalReport [cexInfo] true).1
      = some (sortByKey numberDesc PrInfo.number [cexInfo]) :=
  ⟨final_sort_order_and_stability.1 [cexComment] true (by decide),
   final_sort_order_and_stability.2.2.2.2.1 [cexInfo] true (by decide)⟩

/-- Claim C10.  Implicit merge-commit exclusion: `process_commits_for_listing`
appends no row for a fetched commit whose committer name is exactly
"GitHub" or whose message's first line starts with "Merge branch", and
appends exactly one row for every other fetched commit, whatever the
stats oracle answers.  (The spec never mentions this filter.) -/
theorem merge_commit_exclusion :
    ∀ (fetchDetail : Str → Option CommitDetails) (commits : List CommitItem),
      processCommitsForListing fetchDetail commits
        = commits.filterMap fun c =>
            if ((c.commit.committer.map Person.name).getD [] == str "GitHub")
                  = true
                ∨ startsWithStr (firstLineStr c.commit.message)
                    (str "Merge branch") = true
            then none
            else some (commitEntryOf fetchDetail c)
  | fetchDetail, [] => by simp [processCommitsForListing]
  | fetchDetail, c :: cs => by
    rw [processCommitsForListing, List.filterMap_cons]
    by_cases h1 :
        ((c.commit.committer.map Person.name).getD [] == str "GitHub") = true
    · simp only [h1, if_true, true_or, if_pos]
      exact merge_commit_exclusion fetchDetail cs
    · by_cases h2 : startsWithStr (firstLineStr c.commit.message)
          (str "Merge branch") = true
      · rw [if_neg (by simpa using h1), if_pos h2,
          if_pos (Or.inr h2)]
        exact merge_commit_exclusion fetchDetail cs
      · rw [if_neg (by simpa using h1), if_neg (by simpa using h2),
          if_neg (by simp [h1, h2]),
          merge_commit_exclusion fetchDetail cs]

end GithubScript
